import Mathlib

/-!
Verification of the mongodb exporter's namespace engine
(src/exporter/common.go), diagnostic-data collector caching protocol
(src/exporter/diagnostic_data_collector.go) and sharding changelog export
(src/collector/mongos/sharding_changelog.go), as shallow Lean embeddings of
the Go source.  External driver calls (listDatabaseNames,
listCollectionNames, the getDiagnosticData command, the isArbiter and node
type probes) are modelled as inputs supplied through explicit environment
records; BSON filter documents are modelled as small ASTs together with
their server-side matching semantics.
-/

set_option linter.unusedVariables false
set_option linter.unnecessarySimpa false

/- ===================== string splitting (Go strings.Split on ".") ====== -/

/-- Character-level embedding of Go strings.Split(s, ".") acting on the char
list of s: split at every '.', keeping empty segments; the result always has
at least one segment (Go Split of an empty string is [""]). -/
def splitDotAux : List Char → List (List Char)
  | [] => [[]]
  | c :: rest =>
    match splitDotAux rest with
    | [] => [[]]
    | h :: t => if c = '.' then [] :: h :: t else (c :: h) :: t

/-- Character-level join with '.', the inverse of splitDotAux (Go
strings.Join(parts, ".") on char lists). -/
def joinCharsDot : List (List Char) → List Char
  | [] => []
  | [x] => x
  | x :: rest => x ++ '.' :: joinCharsDot rest

/-- Embedding of Go strings.Split(s, ".") at the String level. -/
def stringsSplitDot (s : String) : List String :=
  (splitDotAux s.data).map String.mk

/-- Embedding of Go strings.Join(parts, ".") at the String level. -/
def joinWithDot : List String → String
  | [] => ""
  | [x] => x
  | x :: rest => x ++ "." ++ joinWithDot rest

/-- Go strings.Contains(s, "."): whether the string has a '.' character. -/
def containsDot (s : String) : Bool :=
  s.data.contains '.'

/-- Character-level case folding (Go strings.ToLower for ASCII database
names), used only to state case-insensitive equivalence of two names. -/
def strToLower (s : String) : String :=
  String.mk (s.data.map Char.toLower)

/- ===================== namespace engine (src/exporter/common.go) ======= -/

/-- splitNamespace from src/exporter/common.go: parts := strings.Split(ns,
"."); if len(parts) < 2 return (parts[0], ""); else (parts[0],
strings.Join(parts[1:], ".")). -/
def splitNamespace (ns : String) : String × String :=
  let parts := stringsSplitDot ns
  if parts.length < 2 then (parts.headD "", "")
  else (parts.headD "", joinWithDot parts.tail)

/-- removeEmptyStrings from src/exporter/common.go: drop "" items, keep the
rest in order. -/
def removeEmptyStrings : List String → List String
  | [] => []
  | item :: rest =>
    if item = "" then removeEmptyStrings rest
    else item :: removeEmptyStrings rest

/-- One $or-branch of the database inclusion filter built by makeDBsFilter:
the BSON document {name: {$eq: eqVal}}. -/
structure NameEqCond where
  eqVal : String
deriving DecidableEq

/-- makeDBsFilter from src/exporter/common.go: after removeEmptyStrings, for
each namespace take parts[0] of strings.Split(namespace, ".") and build
{name: {$eq: parts[0]}}; nil (none) when no expressions, else {$or: [...]}. -/
def makeDBsFilter (filterInNamespaces : List String) : Option (List NameEqCond) :=
  let nss := removeEmptyStrings filterInNamespaces
  let filterExpressions := nss.map (fun ns => NameEqCond.mk ((stringsSplitDot ns).headD ""))
  if filterExpressions.length = 0 then none else some filterExpressions

/-- Server-side semantics of the optional {$or: [{name: {$eq: v}}, ...]}
database filter against a database name: a nil filter matches every name;
otherwise some branch must match, and MongoDB $eq on strings under the
default collation is exact (case-sensitive) equality. -/
def dbFilterMatches : Option (List NameEqCond) → String → Bool
  | none, _ => true
  | some conds, name => conds.any (fun c => c.eqVal == name)

/-- makeDBsFilter from src/unnamed/part_000 (older variant): for every
namespace (no empty-string removal) take parts[0]; nil when the list is
empty, else {name: {$in: dbs}}. -/
def makeDBsFilterLegacy (filterInNamespaces : List String) : Option (List String) :=
  let dbs := filterInNamespaces.filterMap (fun ns =>
    let parts := stringsSplitDot ns
    if parts.length > 0 then some (parts.headD "") else none)
  if dbs.length = 0 then none else some dbs

/-- Server-side semantics of the optional {name: {$in: dbs}} filter: nil
matches everything, otherwise exact (case-sensitive) membership. -/
def dbInFilterMatches : Option (List String) → String → Bool
  | none, _ => true
  | some dbs, name => dbs.contains name

/-- makeExcludeFilter from src/exporter/common.go: one {name: {$ne: dbname}}
per excluded name, AND-combined; nil when the list is empty. -/
def makeExcludeFilter (exclude : List String) : Option (List String) :=
  let filterExpressions := exclude.map (fun dbname => dbname)
  if filterExpressions.length = 0 then none else some filterExpressions

/-- Server-side semantics of the optional {$and: [{name: {$ne: v}}, ...]}
exclusion filter: nil matches everything, otherwise the name must differ
from every excluded name. -/
def excludeFilterMatches : Option (List String) → String → Bool
  | none, _ => true
  | some l, name => l.all (fun v => !(v == name))

/-- One regex branch {name: {$regex: pattern, $options: options}} of the
collection-name filter built by listCollections. -/
structure CollRegexExpr where
  pattern : String
  options : String
deriving DecidableEq

/-- The filter document passed to ListCollectionNames: either the empty
document (lists every collection), an $or of case-insensitive name regexes,
or the {type: t} document used by listCollectionsWithoutViews. -/
inductive CollListFilter where
  | empty
  | orRegex (exprs : List CollRegexExpr)
  | byType (t : String)
deriving DecidableEq

/-- The loop of listCollections (src/exporter/common.go): for each namespace,
parts := strings.Split(namespace, "."); if len(parts) > 1 append
{name: {$regex: strings.Join(parts[1:], "."), $options: "i"}}. -/
def buildMatchExpressions : List String → List CollRegexExpr
  | [] => []
  | ns :: rest =>
    let parts := stringsSplitDot ns
    if parts.length > 1 then
      CollRegexExpr.mk (joinWithDot parts.tail) "i" :: buildMatchExpressions rest
    else buildMatchExpressions rest

/-- Filter construction of listCollections (src/exporter/common.go): default
empty filter; when filterInNamespaces is nonempty build the regex branches,
and use {$or: branches} only when at least one branch was built. -/
def listCollectionsMatchFilter (filterInNamespaces : List String) : CollListFilter :=
  if filterInNamespaces.length > 0 then
    let matchExpressions := buildMatchExpressions filterInNamespaces
    if matchExpressions.length > 0 then CollListFilter.orRegex matchExpressions
    else CollListFilter.empty
  else CollListFilter.empty

/-- Environment standing for the MongoDB server behind the driver: the
database names the server would report for an unrestricted listing, and the
collection names ListCollectionNames reports per database and filter
document.  The fallible driver calls are modelled as total functions because
the claims under verification only concern the non-failing paths. -/
structure MongoEnv where
  dbs : List String
  listCollectionNames : String → CollListFilter → List String

/-- listCollections from src/exporter/common.go: build the match filter from
filterInNamespaces and ask the driver for the database's collection names. -/
def listCollections (env : MongoEnv) (database : String) (filterInNamespaces : List String) : List String :=
  env.listCollectionNames database (listCollectionsMatchFilter filterInNamespaces)

/-- databases from src/exporter/common.go: ListDatabaseNames under the
conjunction of the exclusion filter and the namespace inclusion filter; the
server returns the names matching the combined filter document. -/
def databases (env : MongoEnv) (filterInNamespaces : List String) (exclude : List String) : List String :=
  env.dbs.filter (fun name =>
    excludeFilterMatches (makeExcludeFilter exclude) name &&
    dbFilterMatches (makeDBsFilter filterInNamespaces) name)

/-- listCollectionsWithoutViews from src/exporter/common.go: list all
databases with no filters, skip empty database names, and collect
db ++ "." ++ coll for every collection listed with {type: "collection"}.
The Go map used as a set is modelled as the list of its keys. -/
def listCollectionsWithoutViews (env : MongoEnv) : List String :=
  ((databases env [] []).filter (fun db => !(db == ""))).flatMap
    (fun db => (env.listCollectionNames db (CollListFilter.byType "collection")).map
      (fun collection => db ++ "." ++ collection))

/-- The loop of filterCollectionsWithoutViews: walk the candidates in order;
on the first candidate absent from the type=collection listing return the
view error, otherwise accumulate the candidate. -/
def filterCollectionsLoop (onlyCollections : List String) : List String → Except String (List String)
  | [] => Except.ok []
  | collection :: rest =>
    if onlyCollections.contains collection then
      match filterCollectionsLoop onlyCollections rest with
      | Except.ok tailRes => Except.ok (collection :: tailRes)
      | Except.error e => Except.error e
    else
      Except.error ("collection/namespace " ++ collection ++ " is view. Cannot be used for collstats/indexstats")

/-- filterCollectionsWithoutViews from src/exporter/common.go. -/
def filterCollectionsWithoutViews (env : MongoEnv) (collections : List String) : Except String (List String) :=
  filterCollectionsLoop (listCollectionsWithoutViews env) collections

/- ======= document model and spec-modelled flattener (not under src/) === -/

/-- Modelled from the spec: the Document data model of section 3 — an ordered
mapping from string key to a dynamically typed value (integer, float,
boolean, string, null, nested document, or sequence).  bson.M values of the
Go source are embedded as List (String × BVal), with the nil map embedded as
the empty list. -/
inductive BVal where
  | i (v : Int)
  | f (v : Rat)
  | b (v : Bool)
  | s (v : String)
  | null
  | doc (pairs : List (String × BVal))
  | arr (elems : List BVal)

/-- A metric sample: name, labels and numeric value (the float64 of the Go
source carries only stored values here, modelled as rationals). -/
structure Metric where
  name : String
  labels : List (String × String)
  value : Rat
deriving DecidableEq

/-- The identity of a metric inside one describe/collect cycle: its name
together with its label keys (what a prometheus Desc advertises). -/
def mId (m : Metric) : String × List String :=
  (m.name, m.labels.map Prod.fst)

/-- Key path join used by the flattener model. -/
def joinKey (pfx k : String) : String :=
  if pfx = "" then k else pfx ++ "_" ++ k

/-- Map lookup on the embedded bson.M (first binding wins, none if the key
is absent — the Go nil result of an absent key). -/
def lookupB : List (String × BVal) → String → Option BVal
  | [], _ => none
  | (k, v) :: rest, key => if k = key then some v else lookupB rest key

mutual

/-- Modelled from the spec: the Document Flattener of section 4.2, whose Go
implementation (makeMetrics and helpers) is not under src/.  Walk the value:
numeric and boolean scalars emit one sample (true is 1, false is 0), strings
and nulls are skipped softly, nested documents recurse on their pairs, and
sequences are encoded positionally — index appended to the name or added as
a label, chosen by compatibleMode. -/
def flattenVal (pfx : String) (labels : List (String × String)) (compatibleMode : Bool) : BVal → List Metric
  | .i v => [⟨pfx, labels, (v : Rat)⟩]
  | .f v => [⟨pfx, labels, v⟩]
  | .b v => [⟨pfx, labels, if v then 1 else 0⟩]
  | .s _ => []
  | .null => []
  | .doc d => flattenPairs pfx labels compatibleMode d
  | .arr l => flattenArr pfx labels compatibleMode 0 l

/-- Modelled from the spec: depth-first walk over a document's key/value
pairs, joining the accumulated key path into the candidate metric name. -/
def flattenPairs (pfx : String) (labels : List (String × String)) (compatibleMode : Bool) : List (String × BVal) → List Metric
  | [] => []
  | (k, v) :: rest =>
    flattenVal (joinKey pfx k) labels compatibleMode v ++ flattenPairs pfx labels compatibleMode rest

/-- Modelled from the spec: positional encoding of a sequence of values. -/
def flattenArr (pfx : String) (labels : List (String × String)) (compatibleMode : Bool) (i : Nat) : List BVal → List Metric
  | [] => []
  | v :: rest =>
    (if compatibleMode then flattenVal (pfx ++ "_" ++ toString i) labels compatibleMode v
     else flattenVal pfx (labels ++ [("member_idx", toString i)]) compatibleMode v)
    ++ flattenArr pfx labels compatibleMode (i + 1) rest

end

/-- Modelled from the spec: makeMetrics — the entry point of the generic
flattener called by diagnosticDataCollector.collect; its Go body is not
under src/.  It flattens the document's pairs under the given name stem with
the connection's base labels. -/
def makeMetrics (pfx : String) (m : List (String × BVal)) (labels : List (String × String)) (compatibleMode : Bool) : List Metric :=
  flattenPairs pfx labels compatibleMode m

/-- Modelled from the spec: locksMetrics — the lock-statistics decomposition
of section 4.2, a post-processing pass that takes the raw administrative
document, extracts a sub-section and calls the generic flattener with a
distinct name stem; its Go body is not under src/. -/
def locksMetrics (m : List (String × BVal)) : List Metric :=
  match lookupB m "locks" with
  | some (.doc d) => flattenPairs "locks" [] false d
  | _ => []

/-- Modelled from the spec: specialMetrics — a domain post-processing pass of
section 4.2 over the raw administrative document (sub-section extraction
followed by generic flattening); its Go body is not under src/. -/
def specialMetrics (m : List (String × BVal)) : List Metric :=
  match lookupB m "metrics" with
  | some (.doc d) => flattenPairs "ss" [] false d
  | _ => []

/-- Modelled from the spec: cacheEvictedTotalMetric — extracts the cache
eviction counter from the raw document, failing when the section is absent;
its Go body is not under src/. -/
def cacheEvictedTotalMetric (m : List (String × BVal)) : Except String Metric :=
  match lookupB m "wiredTiger" with
  | some (.doc wt) =>
    match lookupB wt "cache" with
    | some (.doc c) =>
      match lookupB c "modified pages evicted" with
      | some (.i v) => Except.ok ⟨"mongodb_mongod_wiredtiger_cache_evicted_total", [], (v : Rat)⟩
      | some (.f v) => Except.ok ⟨"mongodb_mongod_wiredtiger_cache_evicted_total", [], v⟩
      | _ => Except.error "cannot retrieve cache eviction counter"
    | _ => Except.error "cannot retrieve cache eviction counter"
  | _ => Except.error "cannot retrieve cache eviction counter"

/-- Modelled from the spec: mongosMetrics — the cluster-router-only metric
family of section 4.2, a post-processing pass that extracts a sub-section of
the raw administrative document and flattens it with a distinct name stem;
its Go body is not under src/. -/
def mongosMetrics (m : List (String × BVal)) : List Metric :=
  match lookupB m "sharding" with
  | some (.doc d) => flattenPairs "mongos" [] false d
  | _ => []

/-- Modelled from the spec: the topology roles of section 4.3, as returned by
the getNodeType probe (whose Go body is not under src/). -/
inductive NodeType where
  | standalone
  | mongos
  | replset
  | arbiter
  | unknown
deriving DecidableEq

/- ===== diagnostic data collector (diagnostic_data_collector.go) ======== -/

/-- Outcome of the getDiagnosticData administrative fetch: whether
res.Err() was non-nil, whether decoding the raw response succeeds, and the
decoded document.  Per driver semantics res.Decode fails whenever res.Err()
is non-nil, so the decoded document is only consulted when hasErr is false
and decodeOk is true. -/
structure FetchResult where
  hasErr : Bool
  decodeOk : Bool
  doc : List (String × BVal)

/-- Per-scrape environment of one diagnosticDataCollector: the fetch
outcome, the results of the isArbiter and getNodeType probes (none models a
probe error), the topology base labels, and the compatibility flag. -/
structure DiagEnv where
  fetch : FetchResult
  arbiter : Bool
  nodeType : Option NodeType
  baseLabels : List (String × String)
  compatibleMode : Bool

/-- Observable events of one run of the internal collect routine: the
getDiagnosticData command being issued, an error-level diagnostic being
logged, or a metric being sent on the channel. -/
inductive DiagEvent where
  | fetchCmd
  | diag (msg : String)
  | emit (m : Metric)
deriving DecidableEq

/-- The body of diagnosticDataCollector.collect after the fetch
(src/exporter/diagnostic_data_collector.go lines 82-131): on fetch error
with the arbiter probe answering true, return nothing; otherwise decode
(yielding the nil map on failure), log the decode / empty-response /
data-type diagnostics, extract the data sub-document, and build the metric
list via makeMetrics, locksMetrics and, in compatible mode, specialMetrics,
cacheEvictedTotalMetric and (for a mongos node) mongosMetrics, logging a
diagnostic when the node-type probe failed.  Returns (diagnostics logged,
metrics sent). -/
def dCollectCore (env : DiagEnv) : List String × List Metric :=
  if env.fetch.hasErr && env.arbiter then ([], [])
  else
    let decodeFails := env.fetch.hasErr || !env.fetch.decodeOk
    let m := if decodeFails then [] else env.fetch.doc
    let diag1 := if decodeFails then ["cannot run getDiagnosticData: decode error"] else []
    let dataVal := lookupB m "data"
    let dataNil := match dataVal with
      | none => true
      | some BVal.null => true
      | some _ => false
    let diag2 := if m.isEmpty || dataNil then ["cannot run getDiagnosticData: response is empty"] else []
    let dataDoc : List (String × BVal) × Bool := match dataVal with
      | some (BVal.doc d) => (d, true)
      | _ => ([], false)
    let diag3 := if !dataDoc.2 then ["cannot decode getDiagnosticData: unexpected data type for data field"] else []
    let data := dataDoc.1
    let ms1 := makeMetrics "" data env.baseLabels env.compatibleMode
    let ms2 := ms1 ++ locksMetrics data
    let compat : List String × List Metric :=
      if env.compatibleMode then
        let ms3 := ms2 ++ specialMetrics data
        let ms4 := match cacheEvictedTotalMetric data with
          | Except.ok cem => ms3 ++ [cem]
          | Except.error _ => ms3
        match env.nodeType with
        | none => (["Cannot get node type to check if this is a mongos"], ms4)
        | some nt => ([], if nt = NodeType.mongos then ms4 ++ mongosMetrics data else ms4)
      else ([], ms2)
    (diag1 ++ diag2 ++ diag3 ++ compat.1, compat.2)

/-- Event trace of one run of the internal collect routine: the fetch is
issued first unconditionally (RunCommand is the first statement), then the
diagnostics are logged, then the metrics are sent on the channel. -/
def dCollect (env : DiagEnv) : List DiagEvent :=
  DiagEvent.fetchCmd ::
    ((dCollectCore env).1.map DiagEvent.diag ++ (dCollectCore env).2.map DiagEvent.emit)

/-- The metrics sent during a trace. -/
def metricsOf (tr : List DiagEvent) : List Metric :=
  tr.filterMap (fun e => match e with | DiagEvent.emit m => some m | _ => none)

/-- The error-level diagnostics logged during a trace. -/
def diagsOf (tr : List DiagEvent) : List String :=
  tr.filterMap (fun e => match e with | DiagEvent.diag s => some s | _ => none)

/-- How many times the getDiagnosticData fetch was issued during a trace. -/
def fetchCountOf (tr : List DiagEvent) : Nat :=
  tr.countP (fun e => match e with | DiagEvent.fetchCmd => true | _ => false)

/-- The lock-protected collector state: the metricsCache slice. -/
structure DiagState where
  metricsCache : List Metric
deriving DecidableEq

/-- Result of the exported Describe method: the new collector state, the
sequence of Descs sent to the caller, and the internal event trace. -/
structure DescribeResult where
  state : DiagState
  descs : List (String × List String)
  events : List DiagEvent

/-- diagnosticDataCollector.Describe (lines 52-71): reset metricsCache,
drain the channel fed by the internal collect routine, appending every
metric to the cache and sending its Desc (name plus label keys) to the
caller. -/
def dDescribe (env : DiagEnv) (s : DiagState) : DescribeResult :=
  let cache := metricsOf (dCollect env)
  { state := ⟨cache⟩, descs := cache.map mId, events := dCollect env }

/-- diagnosticDataCollector.Collect (lines 73-80): send every metric of the
cache on the channel; no command is issued.  The trace holds only emit
events. -/
def dCollectPhase (s : DiagState) : List DiagEvent :=
  s.metricsCache.map DiagEvent.emit

/-- One full scrape: a Describe followed by k calls of the exported Collect
on the state Describe left behind. -/
def scrapeTrace (env : DiagEnv) (s0 : DiagState) (k : Nat) : List DiagEvent :=
  let r := dDescribe env s0
  r.events ++ (List.replicate k (dCollectPhase r.state)).flatten

/- ====== sharding changelog (collector/mongos/sharding_changelog.go) ==== -/

/-- GaugeVec child update: With(labels{event: label}).Set(v) replaces the
value of an existing child with that label or creates the child. -/
def gaugeSet (st : List (String × Rat)) (label : String) (v : Rat) : List (String × Rat) :=
  if st.any (fun p => p.1 == label) then
    st.map (fun p => if p.1 == label then (p.1, v) else p)
  else st ++ [(label, v)]

/-- The _id of one changelog aggregation bucket: event name and note. -/
structure ShardingChangelogSummaryId where
  event : String
  note : String
deriving DecidableEq

/-- One changelog aggregation bucket; the Go float64 count is only stored,
modelled as a rational.  The Id pointer is modelled as always present, as in
every document produced by the aggregation. -/
structure ShardingChangelogSummary where
  id : ShardingChangelogSummaryId
  count : Rat
deriving DecidableEq

/-- The twelve event labels Export pre-sets to zero, in source order. -/
def changelogEventLabels : List String :=
  ["moveChunk.start", "moveChunk.to", "moveChunk.to_failed", "moveChunk.from",
   "moveChunk.from_failed", "moveChunk.commit", "addShard", "removeShard.start",
   "shardCollection", "shardCollection.start", "split", "multi-split"]

/-- The zero-initialisation block of ShardingChangelogStats.Export (lines
52-63): twelve Set(0) calls in source order. -/
def exportZeroInit (st : List (String × Rat)) : List (String × Rat) :=
  let st := gaugeSet st "moveChunk.start" 0
  let st := gaugeSet st "moveChunk.to" 0
  let st := gaugeSet st "moveChunk.to_failed" 0
  let st := gaugeSet st "moveChunk.from" 0
  let st := gaugeSet st "moveChunk.from_failed" 0
  let st := gaugeSet st "moveChunk.commit" 0
  let st := gaugeSet st "addShard" 0
  let st := gaugeSet st "removeShard.start" 0
  let st := gaugeSet st "shardCollection" 0
  let st := gaugeSet st "shardCollection.start" 0
  let st := gaugeSet st "split" 0
  let st := gaugeSet st "multi-split" 0
  st

/-- The per-item switch of ShardingChangelogStats.Export (lines 66-91):
moveChunk.to and moveChunk.from with a note other than "success" or "" are
recorded under event + "_failed", every other case under the event name. -/
def exportItem (st : List (String × Rat)) (item : ShardingChangelogSummary) : List (String × Rat) :=
  let event := item.id.event
  let note := item.id.note
  let count := item.count
  match event with
  | "moveChunk.to" =>
    if note == "success" || note == "" then gaugeSet st event count
    else gaugeSet st (event ++ "_failed") count
  | "moveChunk.from" =>
    if note == "success" || note == "" then gaugeSet st event count
    else gaugeSet st (event ++ "_failed") count
  | _ => gaugeSet st event count

/-- The label an item is recorded under, read off the switch above. -/
def exportItemLabel (item : ShardingChangelogSummary) : String :=
  match item.id.event with
  | "moveChunk.to" =>
    if item.id.note == "success" || item.id.note == "" then item.id.event
    else item.id.event ++ "_failed"
  | "moveChunk.from" =>
    if item.id.note == "success" || item.id.note == "" then item.id.event
    else item.id.event ++ "_failed"
  | _ => item.id.event

/-- ShardingChangelogStats.Export (lines 50-93): zero-initialise the twelve
known labels, then fold the per-item switch over the summary list; the final
Collect call then emits every child of the resulting gauge state. -/
def shardingChangelogExport (st0 : List (String × Rat)) (items : List ShardingChangelogSummary) : List (String × Rat) :=
  items.foldl exportItem (exportZeroInit st0)

/- ===================== concrete environments for evaluation ============ -/

/-- A server with one database holding one physical collection c1 (so any
other requested namespace resolves to a view). -/
def envNoViews : MongoEnv :=
  ⟨["db1", ""], fun db filt =>
    if db = "db1" && filt == CollListFilter.byType "collection" then ["c1"] else []⟩

/-- A scrape environment whose getDiagnosticData fetch failed on a
non-arbiter node, in compatible mode on a mongos, with a well-formed
document behind the failed response. -/
def envFetchFailed : DiagEnv :=
  ⟨⟨true, true, [("data", BVal.doc [("x", BVal.i 5)])]⟩, false,
   some NodeType.mongos, [("rs", "r0")], true⟩

/-- A scrape environment whose getDiagnosticData fetch failed on a node the
arbiter probe classifies as an arbiter. -/
def envArbiterFailed : DiagEnv :=
  ⟨⟨true, true, [("data", BVal.doc [("x", BVal.i 5)])]⟩, true,
   some NodeType.mongos, [("rs", "r0")], true⟩

/-- A moveChunk.to changelog bucket whose note records a failure. -/
def itemMoveToFailed : ShardingChangelogSummary :=
  ⟨⟨"moveChunk.to", "aborted"⟩, 3⟩

/- ======================= theorems: string splitting ==================== -/

theorem splitDotAux_ne_nil : ∀ l : List Char, splitDotAux l ≠ []
  | [] => by simp [splitDotAux]
  | c :: rest => by
    unfold splitDotAux
    cases h : splitDotAux rest with
    | nil => simp
    | cons hd tl => by_cases hc : c = '.' <;> simp [hc]

theorem joinCharsDot_splitDotAux : ∀ l : List Char, joinCharsDot (splitDotAux l) = l
  | [] => rfl
  | c :: rest => by
    have ih := joinCharsDot_splitDotAux rest
    unfold splitDotAux
    cases h : splitDotAux rest with
    | nil => exact absurd h (splitDotAux_ne_nil rest)
    | cons hd tl =>
      rw [h] at ih
      by_cases hc : c = '.'
      · subst hc
        simp only [if_pos rfl]
        cases tl <;> simp [joinCharsDot] at ih ⊢ <;> simp [ih]
      · simp only [if_neg hc]
        cases tl <;> simp [joinCharsDot] at ih ⊢ <;> simp [ih]

theorem splitDotAux_length_two_iff : ∀ l : List Char, 2 ≤ (splitDotAux l).length ↔ '.' ∈ l
  | [] => by simp [splitDotAux]
  | c :: rest => by
    have ih := splitDotAux_length_two_iff rest
    unfold splitDotAux
    cases h : splitDotAux rest with
    | nil => exact absurd h (splitDotAux_ne_nil rest)
    | cons hd tl =>
      rw [h] at ih
      by_cases hc : c = '.'
      · subst hc
        simp
      · simp only [if_neg hc]
        simp only [List.length_cons, List.mem_cons] at ih ⊢
        constructor
        · intro hlen
          right
          rw [← ih]
          omega
        · intro hmem
          rcases hmem with hmem | hmem
          · exact absurd hmem.symm hc
          · rw [← ih] at hmem
            omega

theorem splitDotAux_head_no_dot : ∀ l : List Char, '.' ∉ (splitDotAux l).headD []
  | [] => by simp [splitDotAux]
  | c :: rest => by
    have ih := splitDotAux_head_no_dot rest
    unfold splitDotAux
    cases h : splitDotAux rest with
    | nil => exact absurd h (splitDotAux_ne_nil rest)
    | cons hd tl =>
      rw [h] at ih
      by_cases hc : c = '.'
      · subst hc
        simp
      · simp only [if_neg hc, List.headD_cons, List.mem_cons] at ih ⊢
        intro hmem
        rcases hmem with hmem | hmem
        · exact hc hmem.symm
        · exact ih hmem

theorem string_data_append (s t : String) : (s ++ t).data = s.data ++ t.data := by
  cases s
  cases t
  rfl

theorem joinWithDot_map_mk : ∀ parts : List (List Char),
    (joinWithDot (parts.map String.mk)).data = joinCharsDot parts
  | [] => rfl
  | [x] => rfl
  | x :: y :: t => by
    have ih := joinWithDot_map_mk (y :: t)
    show (String.mk x ++ "." ++ joinWithDot (List.map String.mk (y :: t))).data =
      x ++ '.' :: joinCharsDot (y :: t)
    rw [string_data_append, string_data_append, ih]
    show x ++ ['.'] ++ joinCharsDot (y :: t) = x ++ '.' :: joinCharsDot (y :: t)
    simp [List.append_assoc]

theorem containsDot_iff (s : String) : containsDot s = true ↔ '.' ∈ s.data := by
  simp [containsDot]

theorem stringsSplitDot_two_iff (s : String) :
    2 ≤ (stringsSplitDot s).length ↔ containsDot s = true := by
  rw [containsDot_iff, stringsSplitDot, List.length_map]
  exact splitDotAux_length_two_iff s.data

theorem string_eq_of_data_eq (s t : String) (h : s.data = t.data) : s = t := by
  cases s with
  | mk a =>
    cases t with
    | mk b => exact congrArg String.mk h

theorem stringsSplitDot_mk (l : List Char) :
    stringsSplitDot ⟨l⟩ = (splitDotAux l).map String.mk := rfl

theorem splitNamespace_of_parts (ns hd t1 : String) (ts : List String)
    (h : stringsSplitDot ns = hd :: t1 :: ts) :
    splitNamespace ns = (hd, joinWithDot (t1 :: ts)) := by
  simp only [splitNamespace]
  rw [h]
  have hlen : ¬ (hd :: t1 :: ts).length < 2 := by
    simp only [List.length_cons]
    omega
  rw [if_neg hlen]
  simp

theorem splitNamespace_single (ns hd : String) (h : stringsSplitDot ns = [hd]) :
    splitNamespace ns = (hd, "") := by
  simp only [splitNamespace]
  rw [h]
  simp

/-- C7: splitNamespace returns the text before the first '.' as the database
and the remainder, rejoined with its internal dots preserved, as the
collection; with no '.' the collection is empty; and with at least one '.'
database ++ "." ++ collection reconstructs the namespace exactly. -/
theorem splitNamespace_spec (ns : String) :
    (containsDot ns = false → splitNamespace ns = (ns, "")) ∧
    (containsDot ns = true →
      (splitNamespace ns).1 ++ "." ++ (splitNamespace ns).2 = ns ∧
      containsDot (splitNamespace ns).1 = false) := by
  obtain ⟨l⟩ := ns
  cases hsp : splitDotAux l with
  | nil => exact absurd hsp (splitDotAux_ne_nil l)
  | cons hd tl =>
    have hjoin : joinCharsDot (hd :: tl) = l := by
      rw [← hsp]
      exact joinCharsDot_splitDotAux l
    have htwo := splitDotAux_length_two_iff l
    rw [hsp] at htwo
    have hhead := splitDotAux_head_no_dot l
    rw [hsp] at hhead
    simp only [List.headD_cons] at hhead
    constructor
    · intro hnd
      have hmem : '.' ∉ l := by
        intro hm
        rw [(containsDot_iff ⟨l⟩).mpr hm] at hnd
        exact Bool.true_eq_false.mp hnd
      have htl : tl = [] := by
        cases tl with
        | nil => rfl
        | cons t1 ts =>
          refine absurd (htwo.mp ?_) hmem
          simp only [List.length_cons]
          omega
      subst htl
      have hl : hd = l := by simpa [joinCharsDot] using hjoin
      subst hl
      exact splitNamespace_single ⟨hd⟩ ⟨hd⟩ (by rw [stringsSplitDot_mk, hsp]; rfl)
    · intro hd2
      have hmem : '.' ∈ l := (containsDot_iff ⟨l⟩).mp hd2
      have h2 : 2 ≤ (hd :: tl).length := htwo.mpr hmem
      cases tl with
      | nil => simp at h2
      | cons t1 ts =>
        have hsplit := splitNamespace_of_parts ⟨l⟩ ⟨hd⟩ ⟨t1⟩ (ts.map String.mk)
          (by rw [stringsSplitDot_mk, hsp]; rfl)
        constructor
        · rw [hsplit]
          apply string_eq_of_data_eq
          rw [string_data_append, string_data_append]
          have hjw : (joinWithDot (String.mk t1 :: List.map String.mk ts)).data =
              joinCharsDot (t1 :: ts) := joinWithDot_map_mk (t1 :: ts)
          rw [hjw]
          show hd ++ ['.'] ++ joinCharsDot (t1 :: ts) = l
          rw [← hjoin]
          show hd ++ ['.'] ++ joinCharsDot (t1 :: ts) = hd ++ '.' :: joinCharsDot (t1 :: ts)
          simp [List.append_assoc]
        · rw [hsplit]
          show containsDot (String.mk hd) = false
          have hne : ¬ containsDot (String.mk hd) = true := by
            rw [containsDot_iff]
            exact hhead
          simpa using hne

/-- Witness for C7 at a namespace with a dotted collection part and at one
with no dot. -/
theorem splitNamespace_spec_witness :
    (splitNamespace "db1.collection.one").1 ++ "." ++ (splitNamespace "db1.collection.one").2 =
      "db1.collection.one" ∧
    splitNamespace "db1" = ("db1", "") :=
  ⟨((splitNamespace_spec "db1.collection.one").2 (by decide)).1,
   (splitNamespace_spec "db1").1 (by decide)⟩

/- ============== theorems: namespace filters (C5, C6, C8) =============== -/

theorem buildMatchExpressions_eq (nss : List String) :
    buildMatchExpressions nss =
      (nss.filter (fun ns => containsDot ns)).map
        (fun ns => CollRegexExpr.mk (splitNamespace ns).2 "i") := by
  induction nss with
  | nil => rfl
  | cons ns rest ih =>
    simp only [buildMatchExpressions]
    by_cases hc : containsDot ns = true
    · have hlen : (stringsSplitDot ns).length > 1 := by
        have := (stringsSplitDot_two_iff ns).mpr hc
        omega
      rw [if_pos hlen]
      have hcoll : joinWithDot (stringsSplitDot ns).tail = (splitNamespace ns).2 := by
        simp only [splitNamespace]
        rw [if_neg (by omega)]
      rw [hcoll]
      simp [List.filter_cons, hc, ih]
    · have hc' : containsDot ns = false := by simpa using hc
      have hlen : ¬ (stringsSplitDot ns).length > 1 := by
        intro hgt
        have := (stringsSplitDot_two_iff ns).mp (by omega)
        rw [this] at hc'
        exact Bool.true_eq_false.mp hc'
      rw [if_neg hlen]
      simp [List.filter_cons, hc', ih]

theorem listCollectionsMatchFilter_eq (nss : List String) :
    listCollectionsMatchFilter nss =
      (if nss.filter (fun ns => containsDot ns) = [] then CollListFilter.empty
       else CollListFilter.orRegex ((nss.filter (fun ns => containsDot ns)).map
         (fun ns => CollRegexExpr.mk (splitNamespace ns).2 "i"))) := by
  simp only [listCollectionsMatchFilter, buildMatchExpressions_eq]
  cases nss with
  | nil => simp
  | cons a rest =>
    rw [if_pos (by simp)]
    by_cases hf : (a :: rest).filter (fun ns => containsDot ns) = []
    · rw [hf]
      simp
    · have hpos : (((a :: rest).filter (fun ns => containsDot ns)).map
          (fun ns => CollRegexExpr.mk (splitNamespace ns).2 "i")).length > 0 := by
        rw [List.length_map]
        exact List.length_pos.mpr hf
      rw [if_pos hpos, if_neg hf]

/-- C6: listCollections builds its match filter from exactly the entries
containing a '.', rebuilding the collection portion (everything after the
first dot, rejoined with dots) as a case-insensitive ("i") regular
expression, OR-combined; entries with no collection portion are ignored, and
an empty filter list or one with no usable entries yields the empty filter
document, which lists all collections of the database. -/
theorem listCollections_filter_spec (nss : List String) :
    listCollectionsMatchFilter nss =
      (if nss.filter (fun ns => containsDot ns) = [] then CollListFilter.empty
       else CollListFilter.orRegex ((nss.filter (fun ns => containsDot ns)).map
         (fun ns => CollRegexExpr.mk (splitNamespace ns).2 "i"))) ∧
    (∀ env db, listCollections env db nss =
      env.listCollectionNames db (listCollectionsMatchFilter nss)) :=
  ⟨listCollectionsMatchFilter_eq nss, fun env db => rfl⟩

theorem removeEmptyStrings_append (a b : List String) :
    removeEmptyStrings (a ++ b) = removeEmptyStrings a ++ removeEmptyStrings b := by
  induction a with
  | nil => rfl
  | cons x xs ih => by_cases hx : x = "" <;> simp [removeEmptyStrings, hx, ih]

/-- C8: an empty-string filter token is dropped before being used in any
matcher: inserting "" anywhere in the token list changes neither the cleaned
token list, nor the database inclusion filter of makeDBsFilter, nor the
collection match filter of listCollections. -/
theorem empty_tokens_dropped (l1 l2 : List String) :
    removeEmptyStrings (l1 ++ "" :: l2) = removeEmptyStrings (l1 ++ l2) ∧
    makeDBsFilter (l1 ++ "" :: l2) = makeDBsFilter (l1 ++ l2) ∧
    listCollectionsMatchFilter (l1 ++ "" :: l2) = listCollectionsMatchFilter (l1 ++ l2) := by
  have hrem : removeEmptyStrings (l1 ++ "" :: l2) = removeEmptyStrings (l1 ++ l2) := by
    rw [removeEmptyStrings_append, removeEmptyStrings_append]
    simp [removeEmptyStrings]
  refine ⟨hrem, ?_, ?_⟩
  · simp only [makeDBsFilter, hrem]
  · have h0 : containsDot "" = false := by decide
    have hfil : (l1 ++ "" :: l2).filter (fun ns => containsDot ns) =
        (l1 ++ l2).filter (fun ns => containsDot ns) := by
      simp [List.filter_append, List.filter_cons, h0]
    rw [listCollectionsMatchFilter_eq, listCollectionsMatchFilter_eq, hfil]

/-- C5 (code_bug evidence): the database inclusion filter is built from the
database portion of each entry ("TESTDB" for "TESTDB.col"), but its $eq
comparison is exact: the database "testdb", equal to that portion up to
case, is NOT selected, contradicting the claimed (and documented)
case-insensitive matching; the same holds for the legacy $in variant. -/
theorem makeDBsFilter_case_sensitivity_bug :
    (stringsSplitDot "TESTDB.col").headD "" = "TESTDB" ∧
    strToLower "TESTDB" = strToLower "testdb" ∧
    dbFilterMatches (makeDBsFilter ["TESTDB.col"]) "testdb" = false ∧
    dbFilterMatches (makeDBsFilter ["TESTDB.col"]) "TESTDB" = true ∧
    dbInFilterMatches (makeDBsFilterLegacy ["TESTDB.col"]) "testdb" = false := by
  decide

/- =================== theorems: view filtering (C9) ===================== -/

theorem contains_iff_mem_str (l : List String) (a : String) :
    l.contains a = true ↔ a ∈ l := by
  induction l with
  | nil => simp
  | cons x xs ih => simp

theorem filterCollectionsLoop_cases (only : List String) (colls : List String) :
    (filterCollectionsLoop only colls = Except.ok colls ∧ ∀ c ∈ colls, c ∈ only) ∨
    ((∃ c ∈ colls, c ∉ only) ∧ ∃ msg, filterCollectionsLoop only colls = Except.error msg) := by
  induction colls with
  | nil => exact Or.inl ⟨rfl, by simp⟩
  | cons c rest ih =>
    by_cases hc : c ∈ only
    · have hcont : only.contains c = true := (contains_iff_mem_str only c).mpr hc
      rcases ih with ⟨hok, hall⟩ | ⟨⟨c', hc', hna⟩, msg, herr⟩
      · left
        refine ⟨?_, ?_⟩
        · simp [filterCollectionsLoop, hcont, hok, hc]
        · intro x hx
          rcases List.mem_cons.mp hx with rfl | hx
          · exact hc
          · exact hall x hx
      · right
        refine ⟨⟨c', List.mem_cons_of_mem _ hc', hna⟩, msg, ?_⟩
        simp [filterCollectionsLoop, hcont, herr, hc]
    · have hcont : only.contains c = false := by
        rw [← Bool.not_eq_true]
        intro h
        exact hc ((contains_iff_mem_str only c).mp h)
      right
      refine ⟨⟨c, List.mem_cons_self c rest, hc⟩,
        "collection/namespace " ++ c ++ " is view. Cannot be used for collstats/indexstats", ?_⟩
      simp [filterCollectionsLoop, hcont, hc]

/-- C9: filterCollectionsWithoutViews returns the candidate list unchanged
exactly when every candidate appears among the namespaces listed with
type = collection, and returns the view error as soon as any candidate is
absent from that listing — a single view fails the whole request. -/
theorem filterCollectionsWithoutViews_spec (env : MongoEnv) (collections : List String) :
    (filterCollectionsWithoutViews env collections = Except.ok collections ↔
      ∀ c ∈ collections, c ∈ listCollectionsWithoutViews env) ∧
    ((∃ c ∈ collections, c ∉ listCollectionsWithoutViews env) →
      ∃ msg, filterCollectionsWithoutViews env collections = Except.error msg) := by
  have hcases := filterCollectionsLoop_cases (listCollectionsWithoutViews env) collections
  constructor
  · constructor
    · intro hok
      rcases hcases with ⟨_, hall⟩ | ⟨_, msg, herr⟩
      · exact hall
      · rw [filterCollectionsWithoutViews] at hok
        rw [hok] at herr
        exact absurd herr (by simp)
    · intro hall
      rcases hcases with ⟨hok, _⟩ | ⟨⟨c, hcm, hna⟩, _, _⟩
      · exact hok
      · exact absurd (hall c hcm) hna
  · intro hex
    obtain ⟨c, hcm, hna⟩ := hex
    rcases hcases with ⟨_, hall⟩ | ⟨_, msg, herr⟩
    · exact absurd (hall c hcm) hna
    · exact ⟨msg, herr⟩

/-- Witness for C9: against a server whose only physical collection is
db1.c1, the candidate list [db1.c1] passes unchanged and the candidate list
[db1.v1] (a view) fails with the view error. -/
theorem filterCollectionsWithoutViews_spec_witness :
    filterCollectionsWithoutViews envNoViews ["db1.c1"] = Except.ok ["db1.c1"] ∧
    ∃ msg, filterCollectionsWithoutViews envNoViews ["db1.v1"] = Except.error msg :=
  ⟨(filterCollectionsWithoutViews_spec envNoViews ["db1.c1"]).1.mpr (by decide),
   (filterCollectionsWithoutViews_spec envNoViews ["db1.v1"]).2 ⟨"db1.v1", by decide, by decide⟩⟩

/- ============== theorems: sharding changelog export (C10) ============== -/

theorem map_fst_gaugeSet (st : List (String × Rat)) (l : String) (v : Rat) :
    (gaugeSet st l v).map Prod.fst = st.map Prod.fst ∨
    (gaugeSet st l v).map Prod.fst = st.map Prod.fst ++ [l] := by
  unfold gaugeSet
  split
  · left
    rw [List.map_map]
    congr 1
    funext p
    by_cases h : p.1 = l <;> simp [h]
  · right
    simp

theorem mem_fst_gaugeSet_self (st : List (String × Rat)) (l : String) (v : Rat) :
    l ∈ (gaugeSet st l v).map Prod.fst := by
  unfold gaugeSet
  split
  · next h =>
    obtain ⟨p, hp, hpe⟩ := List.any_eq_true.mp h
    refine List.mem_map.mpr ⟨(p.1, v), List.mem_map.mpr ⟨p, hp, by simp [hpe]⟩, ?_⟩
    exact beq_iff_eq.mp hpe
  · simp

theorem mem_fst_gaugeSet_mono (st : List (String × Rat)) (l : String) (v : Rat)
    (lbl : String) (h : lbl ∈ st.map Prod.fst) : lbl ∈ (gaugeSet st l v).map Prod.fst := by
  rcases map_fst_gaugeSet st l v with he | he <;> rw [he]
  · exact h
  · exact List.mem_append_left _ h

theorem exportItem_eq (st : List (String × Rat)) (item : ShardingChangelogSummary) :
    exportItem st item = gaugeSet st (exportItemLabel item) item.count := by
  rcases item with ⟨⟨event, note⟩, count⟩
  simp only [exportItem, exportItemLabel]
  split
  · by_cases hn : (note == "success" || note == "") = true <;> simp [hn]
  · by_cases hn : (note == "success" || note == "") = true <;> simp [hn]
  · rfl

theorem foldl_exportItem_mono (items : List ShardingChangelogSummary) :
    ∀ (st : List (String × Rat)) (lbl : String), lbl ∈ st.map Prod.fst →
      lbl ∈ (items.foldl exportItem st).map Prod.fst := by
  induction items with
  | nil =>
    intro st lbl h
    simpa using h
  | cons it rest ih =>
    intro st lbl h
    rw [List.foldl_cons]
    apply ih
    rw [exportItem_eq]
    exact mem_fst_gaugeSet_mono _ _ _ _ h

theorem exportZeroInit_eq_foldl (st : List (String × Rat)) :
    exportZeroInit st = changelogEventLabels.foldl (fun s e => gaugeSet s e 0) st := by
  simp only [changelogEventLabels, List.foldl_cons, List.foldl_nil, exportZeroInit]

theorem mem_fst_foldl_zero (L : List String) :
    ∀ (st : List (String × Rat)) (lbl : String), lbl ∈ L ∨ lbl ∈ st.map Prod.fst →
      lbl ∈ (L.foldl (fun s e => gaugeSet s e 0) st).map Prod.fst := by
  induction L with
  | nil =>
    intro st lbl h
    rcases h with h | h
    · simp at h
    · simpa using h
  | cons e L ih =>
    intro st lbl h
    rw [List.foldl_cons]
    apply ih
    rcases h with h | h
    · rcases List.mem_cons.mp h with rfl | h
      · right
        exact mem_fst_gaugeSet_self st lbl 0
      · left
        exact h
    · right
      exact mem_fst_gaugeSet_mono _ _ _ _ h

/-- C10: ShardingChangelogStats.Export first sets all twelve known changelog
event labels to zero, so each appears in the exported gauge state even with
no events in the window; and a moveChunk.to or moveChunk.from summary whose
note is neither "success" nor empty is recorded under the event name with
"_failed" appended instead of the plain event name. -/
theorem shardingChangelogExport_spec (st0 : List (String × Rat))
    (items : List ShardingChangelogSummary) (item : ShardingChangelogSummary)
    (hev : item.id.event = "moveChunk.to" ∨ item.id.event = "moveChunk.from")
    (hn1 : item.id.note ≠ "success") (hn2 : item.id.note ≠ "") :
    (∀ e ∈ changelogEventLabels, e ∈ (shardingChangelogExport st0 items).map Prod.fst) ∧
    (∀ st, exportItem st item = gaugeSet st (item.id.event ++ "_failed") item.count) := by
  constructor
  · intro e he
    rw [shardingChangelogExport]
    apply foldl_exportItem_mono
    rw [exportZeroInit_eq_foldl]
    exact mem_fst_foldl_zero changelogEventLabels st0 e (Or.inl he)
  · intro st
    rw [exportItem_eq]
    have hbeq : (item.id.note == "success" || item.id.note == "") = false := by
      simp only [Bool.or_eq_false_iff, beq_eq_false_iff_ne]
      exact ⟨hn1, hn2⟩
    have hlbl : exportItemLabel item = item.id.event ++ "_failed" := by
      unfold exportItemLabel
      rcases hev with h | h <;> rw [h] <;> simp [hbeq]
    rw [hlbl]

/-- Witness for C10: a failed moveChunk.to bucket is recorded under
moveChunk.to_failed, and the zero-initialised label set appears in the
output. -/
theorem shardingChangelogExport_spec_witness :
    "moveChunk.to_failed" ∈ (shardingChangelogExport [] [itemMoveToFailed]).map Prod.fst ∧
    exportItem [] itemMoveToFailed = gaugeSet [] "moveChunk.to_failed" 3 := by
  have h := shardingChangelogExport_spec [] [itemMoveToFailed] itemMoveToFailed
    (Or.inl rfl) (by decide) (by decide)
  exact ⟨h.1 "moveChunk.to_failed" (by decide), (h.2 []).trans (by decide)⟩

/- ========== theorems: diagnostic data collector (C1 - C4) ============== -/

theorem metricsOf_append (a b : List DiagEvent) :
    metricsOf (a ++ b) = metricsOf a ++ metricsOf b := by
  simp [metricsOf, List.filterMap_append]

theorem metricsOf_map_diag (l : List String) : metricsOf (l.map DiagEvent.diag) = [] := by
  induction l with
  | nil => rfl
  | cons x xs ih => simpa [metricsOf, List.filterMap_cons] using ih

theorem metricsOf_map_emit (l : List Metric) : metricsOf (l.map DiagEvent.emit) = l := by
  induction l with
  | nil => rfl
  | cons x xs ih => simpa [metricsOf, List.filterMap_cons] using ih

theorem diagsOf_append (a b : List DiagEvent) :
    diagsOf (a ++ b) = diagsOf a ++ diagsOf b := by
  simp [diagsOf, List.filterMap_append]

theorem diagsOf_map_diag (l : List String) : diagsOf (l.map DiagEvent.diag) = l := by
  induction l with
  | nil => rfl
  | cons x xs ih => simpa [diagsOf, List.filterMap_cons] using ih

theorem diagsOf_map_emit (l : List Metric) : diagsOf (l.map DiagEvent.emit) = [] := by
  induction l with
  | nil => rfl
  | cons x xs ih => simpa [diagsOf, List.filterMap_cons] using ih

theorem fetchCountOf_append (a b : List DiagEvent) :
    fetchCountOf (a ++ b) = fetchCountOf a + fetchCountOf b := by
  simp [fetchCountOf, List.countP_append]

theorem fetchCountOf_map_diag (l : List String) : fetchCountOf (l.map DiagEvent.diag) = 0 := by
  induction l with
  | nil => rfl
  | cons x xs ih => simpa [fetchCountOf, List.countP_cons] using ih

theorem fetchCountOf_map_emit (l : List Metric) : fetchCountOf (l.map DiagEvent.emit) = 0 := by
  induction l with
  | nil => rfl
  | cons x xs ih => simpa [fetchCountOf, List.countP_cons] using ih

theorem metricsOf_dCollect (env : DiagEnv) : metricsOf (dCollect env) = (dCollectCore env).2 := by
  have h : metricsOf (dCollect env) =
      metricsOf ((dCollectCore env).1.map DiagEvent.diag ++ (dCollectCore env).2.map DiagEvent.emit) := by
    simp [dCollect, metricsOf, List.filterMap_cons]
  rw [h, metricsOf_append, metricsOf_map_diag, metricsOf_map_emit]
  rfl

theorem diagsOf_dCollect (env : DiagEnv) : diagsOf (dCollect env) = (dCollectCore env).1 := by
  have h : diagsOf (dCollect env) =
      diagsOf ((dCollectCore env).1.map DiagEvent.diag ++ (dCollectCore env).2.map DiagEvent.emit) := by
    simp [dCollect, diagsOf, List.filterMap_cons]
  rw [h, diagsOf_append, diagsOf_map_diag, diagsOf_map_emit]
  simp

theorem fetchCountOf_dCollect (env : DiagEnv) : fetchCountOf (dCollect env) = 1 := by
  have h : fetchCountOf (dCollect env) =
      1 + fetchCountOf ((dCollectCore env).1.map DiagEvent.diag ++ (dCollectCore env).2.map DiagEvent.emit) := by
    simp [dCollect, fetchCountOf, List.countP_cons]
    omega
  rw [h, fetchCountOf_append, fetchCountOf_map_diag, fetchCountOf_map_emit]

theorem fetchCountOf_collectPhase (s : DiagState) : fetchCountOf (dCollectPhase s) = 0 := by
  simp only [dCollectPhase]
  exact fetchCountOf_map_emit s.metricsCache

theorem fetchCountOf_flatten_replicate (k : Nat) (l : List DiagEvent)
    (h : fetchCountOf l = 0) : fetchCountOf ((List.replicate k l).flatten) = 0 := by
  induction k with
  | zero => rfl
  | succ n ih =>
    rw [List.replicate_succ, List.flatten_cons, fetchCountOf_append, h, ih]

/-- C1: within one scrape, the sequence of metric identities (name plus
label keys) advertised during Describe equals the identities of exactly the
metrics the exported Collect method emits, which are exactly the metrics
stored in metricsCache — no more and no fewer. -/
theorem diag_describe_collect_identity (env : DiagEnv) (s0 : DiagState) :
    (dDescribe env s0).descs = (metricsOf (dCollectPhase (dDescribe env s0).state)).map mId ∧
    metricsOf (dCollectPhase (dDescribe env s0).state) = (dDescribe env s0).state.metricsCache := by
  constructor <;> simp [dDescribe, dCollectPhase, metricsOf_map_emit]

/-- C2: in one scrape the getDiagnosticData fetch is issued exactly once,
during Describe, and the exported Collect method never issues it no matter
how many times it is called — it only replays the cached snapshot. -/
theorem diag_single_fetch_per_scrape (env : DiagEnv) (s0 : DiagState) (k : Nat) :
    fetchCountOf (scrapeTrace env s0 k) = 1 ∧
    (∀ s : DiagState, fetchCountOf (dCollectPhase s) = 0) ∧
    (∀ s : DiagState, dCollectPhase s = s.metricsCache.map DiagEvent.emit) := by
  refine ⟨?_, fetchCountOf_collectPhase, fun s => rfl⟩
  rw [scrapeTrace]
  have h1 : fetchCountOf (dDescribe env s0).events = 1 := fetchCountOf_dCollect env
  rw [fetchCountOf_append, h1,
    fetchCountOf_flatten_replicate k _ (fetchCountOf_collectPhase _)]

/-- C3: when the getDiagnosticData fetch fails on a non-arbiter node, the
collect routine logs a diagnostic and produces no metrics, so Describe
leaves the metrics cache empty and advertises zero metrics — it completes
without producing metrics from the failed response. -/
theorem diag_fetch_failure_empty_cache (env : DiagEnv) (s0 : DiagState)
    (herr : env.fetch.hasErr = true) (harb : env.arbiter = false) :
    diagsOf (dCollect env) ≠ [] ∧
    metricsOf (dCollect env) = [] ∧
    (dDescribe env s0).state.metricsCache = [] ∧
    (dDescribe env s0).descs = [] := by
  have hcore : (dCollectCore env).2 = [] ∧ (dCollectCore env).1 ≠ [] := by
    obtain ⟨⟨he, dok, doc⟩, arb, nt, bl, cm⟩ := env
    dsimp only at herr harb
    subst herr
    subst harb
    cases cm <;> rcases nt with _ | nt <;>
      simp [dCollectCore, makeMetrics, locksMetrics, specialMetrics,
        cacheEvictedTotalMetric, mongosMetrics, flattenPairs, lookupB]
  have hm : metricsOf (dCollect env) = [] := by
    rw [metricsOf_dCollect]
    exact hcore.1
  refine ⟨?_, hm, ?_, ?_⟩
  · rw [diagsOf_dCollect]
    exact hcore.2
  · simpa [dDescribe] using hm
  · simp [dDescribe, hm]

/-- Witness for C3: a concrete failed fetch on a non-arbiter mongos in
compatible mode, with a well-formed document behind the failed response,
yields diagnostics but no metrics and empty advertised Descs. -/
theorem diag_fetch_failure_empty_cache_witness :
    metricsOf (dCollect envFetchFailed) = [] ∧
    diagsOf (dCollect envFetchFailed) ≠ [] ∧
    (dDescribe envFetchFailed ⟨[]⟩).descs = [] := by
  have h := diag_fetch_failure_empty_cache envFetchFailed ⟨[]⟩ rfl rfl
  exact ⟨h.2.1, h.1, h.2.2.2⟩

/-- C4: when the getDiagnosticData fetch fails and the node is classified as
an arbiter, the collect routine returns immediately: the trace holds only
the fetch itself — no metrics and no logged error. -/
theorem diag_arbiter_fetch_silent (env : DiagEnv)
    (herr : env.fetch.hasErr = true) (harb : env.arbiter = true) :
    dCollect env = [DiagEvent.fetchCmd] ∧
    metricsOf (dCollect env) = [] ∧
    diagsOf (dCollect env) = [] := by
  have hcore : dCollectCore env = ([], []) := by
    unfold dCollectCore
    rw [herr, harb]
    simp
  refine ⟨?_, ?_, ?_⟩ <;> simp [dCollect, hcore, metricsOf, diagsOf]

/-- Witness for C4: a concrete failed fetch on an arbiter yields the bare
fetch trace with no metrics and no diagnostics. -/
theorem diag_arbiter_fetch_silent_witness :
    dCollect envArbiterFailed = [DiagEvent.fetchCmd] ∧
    diagsOf (dCollect envArbiterFailed) = [] := by
  have h := diag_arbiter_fetch_silent envArbiterFailed rfl rfl
  exact ⟨h.1, h.2.2⟩
